import Mathlib

/-!
Verification development for the SmartInvest API-quota governor:
the admission controller (`src/services/rateLimiter.ts`, class `RateLimiter`)
and the memoizing cache (`src/services/translation.ts`, class `TranslationCache`).

The TypeScript classes are shallowly embedded as Lean definitions:

* A JavaScript `Map<string, string>` is modelled as a list of key/value pairs
  kept in insertion order (`JSMap`), with the `Map` operations `get`, `set`,
  `delete` and `keys().next().value` modelled over that list.
* The `RateLimiter` instance state is a record; wall-clock time (`Date.now()`)
  is modelled by an explicit `clock` field of that record, advanced by
  nonnegative environment-chosen deltas at each point where the source reads
  the clock, and advanced by the requested duration at the `setTimeout` sleep.
* Each queued unit of work is modelled by the value its promise eventually
  settles with (`Except` for resolve/reject) plus the time it takes.
* The `async`/`await` interleaving relevant to the single-flight claim is
  modelled separately as a small-step transition system over the suspension
  points of `processQueue`.
-/

namespace SmartInvest

/-! ## JavaScript `Map` model (insertion-ordered key/value list) -/

/-- A JavaScript `Map<string, string>`: entries in insertion order. -/
abbrev JSMap := List (String × String)

namespace JSMap

/-- The keys of the map, in insertion order (`map.keys()`). -/
def keys (m : JSMap) : List String := m.map Prod.fst

/-- `map.get(k)`: value of the entry with key `k`, `undefined` (`none`) if absent. -/
def mapGet (m : JSMap) (k : String) : Option String :=
  (m.find? (fun p => p.1 = k)).map Prod.snd

/-- `map.set(k, v)`: overwrite in place when `k` is present (an existing key
keeps its position in insertion order), otherwise append a new entry at the
end. -/
def mapSet (m : JSMap) (k v : String) : JSMap :=
  if m.any (fun p => p.1 = k) then
    m.map (fun p => if p.1 = k then (k, v) else p)
  else m ++ [(k, v)]

/-- `map.delete(k)`: remove the entry with key `k`. -/
def mapDelete (m : JSMap) (k : String) : JSMap :=
  m.filter (fun p => ¬ p.1 = k)

/-- `map.keys().next().value`: the first key in insertion order, `undefined`
(`none`) on an empty map. -/
def firstKey (m : JSMap) : Option String := m.head?.map Prod.fst

end JSMap

/-! ## `TranslationCache` (translation.ts, lines 17-43) -/

/-- The `TranslationCache` class state: the backing `Map` plus the
`maxEntries` field (initialised to 500). -/
structure TranslationCache where
  cache : JSMap
  maxEntries : ℕ

/-- A freshly constructed `TranslationCache`: empty map, `maxEntries = 500`. -/
def TranslationCache.new : TranslationCache :=
  { cache := [], maxEntries := 500 }

/-- `TranslationCache.set` (translation.ts lines 21-30):
if `cache.size >= maxEntries` it reads the first key and, when that key is
truthy (in JavaScript a string is truthy iff it is nonempty; `undefined` is
falsy), deletes it; then it `Map.set`s the new entry. -/
def TranslationCache.set (c : TranslationCache) (key value : String) : TranslationCache :=
  let cache1 :=
    if c.maxEntries ≤ c.cache.length then
      match JSMap.firstKey c.cache with
      | some fk => if fk = "" then c.cache else JSMap.mapDelete c.cache fk
      | none => c.cache
    else c.cache
  { c with cache := JSMap.mapSet cache1 key value }

/-- `TranslationCache.get` (translation.ts lines 32-34). -/
def TranslationCache.get (c : TranslationCache) (key : String) : Option String :=
  JSMap.mapGet c.cache key

/-- `TranslationCache.clear` (translation.ts lines 36-38). -/
def TranslationCache.clear (c : TranslationCache) : TranslationCache :=
  { c with cache := [] }

/-- `TranslationCache.size` (translation.ts lines 40-42). -/
def TranslationCache.size (c : TranslationCache) : ℕ := c.cache.length

/-! ### Basic `JSMap` lemmas -/

namespace JSMap

theorem mem_keys_iff (m : JSMap) (k : String) :
    k ∈ keys m ↔ ∃ p ∈ m, p.1 = k := by
  simp [keys, List.mem_map]

theorem any_eq_false_iff (m : JSMap) (k : String) :
    m.any (fun p => p.1 = k) = false ↔ k ∉ keys m := by
  rw [List.any_eq_false, mem_keys_iff]
  push_neg
  simp

theorem any_eq_true_iff (m : JSMap) (k : String) :
    m.any (fun p => p.1 = k) = true ↔ k ∈ keys m := by
  rw [List.any_eq_true, mem_keys_iff]
  simp

theorem mapSet_of_mem (m : JSMap) (k v : String) (h : k ∈ keys m) :
    mapSet m k v = m.map (fun p => if p.1 = k then (k, v) else p) := by
  rw [mapSet, if_pos ((any_eq_true_iff m k).mpr h)]

theorem mapSet_of_not_mem (m : JSMap) (k v : String) (h : k ∉ keys m) :
    mapSet m k v = m ++ [(k, v)] := by
  rw [mapSet, (any_eq_false_iff m k).mpr h]
  simp

theorem keys_mapSet_of_mem (m : JSMap) (k v : String) (h : k ∈ keys m) :
    keys (mapSet m k v) = keys m := by
  rw [mapSet_of_mem m k v h, keys, keys, List.map_map]
  apply List.map_congr_left
  intro p _
  by_cases hp : p.1 = k <;> simp [hp]

theorem length_mapSet_of_mem (m : JSMap) (k v : String) (h : k ∈ keys m) :
    (mapSet m k v).length = m.length := by
  rw [mapSet_of_mem m k v h, List.length_map]

theorem mapGet_cons (p : String × String) (m : JSMap) (k : String) :
    mapGet (p :: m) k = if p.1 = k then some p.2 else mapGet m k := by
  by_cases hp : p.1 = k
  · rw [mapGet, List.find?_cons_of_pos _ (by simp [hp]), if_pos hp, Option.map_some']
  · rw [mapGet, List.find?_cons_of_neg _ (by simp [hp]), if_neg hp, mapGet]

theorem mapGet_eq_none (m : JSMap) (k : String) (h : k ∉ keys m) :
    mapGet m k = none := by
  rw [mapGet, List.find?_eq_none.mpr, Option.map_none']
  intro p hp
  simp only [decide_eq_true_eq]
  intro hk
  exact h (hk ▸ List.mem_map_of_mem Prod.fst hp)

theorem mapGet_overwrite_self (m : JSMap) (k v : String) (h : k ∈ keys m) :
    mapGet (m.map (fun p => if p.1 = k then (k, v) else p)) k = some v := by
  induction m with
  | nil => simp [keys] at h
  | cons p m ih =>
    by_cases hp : p.1 = k
    · simp [mapGet, hp]
    · simp only [keys, List.map_cons, List.mem_cons] at h
      rcases h with h | h
      · exact absurd h.symm hp
      · simpa [mapGet, hp] using ih h

theorem mapGet_append_single (m : JSMap) (k v : String) (h : k ∉ keys m) :
    mapGet (m ++ [(k, v)]) k = some v := by
  induction m with
  | nil => simp [mapGet]
  | cons p m ih =>
    simp only [keys, List.map_cons, List.mem_cons, not_or] at h
    simpa [mapGet, Ne.symm h.1] using ih h.2

theorem mapGet_mapSet_self (m : JSMap) (k v : String) :
    mapGet (mapSet m k v) k = some v := by
  by_cases h : k ∈ keys m
  · rw [mapSet_of_mem m k v h]
    exact mapGet_overwrite_self m k v h
  · rw [mapSet_of_not_mem m k v h]
    exact mapGet_append_single m k v h

theorem mapGet_overwrite_ne (m : JSMap) (k v k' : String) (h : ¬ k' = k) :
    mapGet (m.map (fun p => if p.1 = k then (k, v) else p)) k' = mapGet m k' := by
  induction m with
  | nil => simp [mapGet]
  | cons p m ih =>
    have hkk : ¬ k = k' := fun hc => h hc.symm
    by_cases hp : p.1 = k
    · simp [mapGet_cons, hp, hkk, ih]
    · by_cases hp' : p.1 = k'
      · simp [mapGet_cons, hp, hp', h]
      · simp [mapGet_cons, hp, hp', ih]

theorem mapGet_append_single_ne (m : JSMap) (k v k' : String) (h : ¬ k' = k) :
    mapGet (m ++ [(k, v)]) k' = mapGet m k' := by
  have hkk : ¬ k = k' := fun hc => h hc.symm
  induction m with
  | nil => simp [mapGet, mapGet_cons, hkk]
  | cons p m ih =>
    by_cases hp' : p.1 = k' <;> simp [mapGet_cons, hp', ih]

theorem mapGet_mapSet_ne (m : JSMap) (k v k' : String) (h : ¬ k' = k) :
    mapGet (mapSet m k v) k' = mapGet m k' := by
  by_cases hm : k ∈ keys m
  · rw [mapSet_of_mem m k v hm]
    exact mapGet_overwrite_ne m k v k' h
  · rw [mapSet_of_not_mem m k v hm]
    exact mapGet_append_single_ne m k v k' h

theorem mapDelete_cons_self (p : String × String) (m : JSMap) (h : p.1 ∉ keys m) :
    mapDelete (p :: m) p.1 = m := by
  have hall : ∀ q ∈ m, ¬ q.1 = p.1 := by
    intro q hq hqp
    exact h (hqp ▸ List.mem_map_of_mem Prod.fst hq)
  rw [mapDelete, List.filter_cons]
  have h1 : (decide ¬(p.1 = p.1)) = false := by simp
  rw [h1]
  simp only [Bool.false_eq_true, if_false]
  rw [List.filter_eq_self]
  intro q hq
  simpa using hall q hq

end JSMap

/-! ### Filling the cache with distinct keys -/

/-- Insert the keys of `ks` in order, all with value `v`, into a fresh cache. -/
def fillCache (ks : List String) (v : String) : TranslationCache :=
  ks.foldl (fun c k => c.set k v) TranslationCache.new

/-- The string of `i` copies of `a`; `akey 0` is the empty string, which is
falsy in JavaScript. -/
def akey (i : ℕ) : String := String.mk (List.replicate i 'a')

/-- The string of `i + 1` copies of `b`; always nonempty, hence truthy. -/
def bkey (i : ℕ) : String := String.mk (List.replicate (i + 1) 'b')

theorem akey_injective : Function.Injective akey := by
  intro i j hij
  have h2 := congrArg (fun s => s.data.length) hij
  simpa [akey] using h2

theorem bkey_injective : Function.Injective bkey := by
  intro i j hij
  have h2 := congrArg (fun s => s.data.length) hij
  simpa [bkey] using h2

theorem set_maxEntries (c : TranslationCache) (k v : String) :
    (c.set k v).maxEntries = c.maxEntries := rfl

theorem set_not_full (c : TranslationCache) (k v : String)
    (hlen : c.cache.length < c.maxEntries) :
    (c.set k v).cache = JSMap.mapSet c.cache k v := by
  rw [TranslationCache.set]
  simp [Nat.not_le.mpr hlen]

theorem foldl_set_maxEntries (ks : List String) (c : TranslationCache) (v : String) :
    (ks.foldl (fun c k => c.set k v) c).maxEntries = c.maxEntries := by
  induction ks generalizing c with
  | nil => rfl
  | cons k ks ih => rw [List.foldl_cons, ih, set_maxEntries]

theorem fillCache_maxEntries (ks : List String) (v : String) :
    (fillCache ks v).maxEntries = 500 :=
  foldl_set_maxEntries ks TranslationCache.new v

theorem foldl_set_cache (ks : List String) (c : TranslationCache) (v : String)
    (hnodup : (JSMap.keys c.cache ++ ks).Nodup)
    (hlen : c.cache.length + ks.length ≤ c.maxEntries) :
    (ks.foldl (fun c k => c.set k v) c).cache = c.cache ++ ks.map (fun k => (k, v)) := by
  induction ks generalizing c with
  | nil => simp
  | cons k ks ih =>
    rw [List.nodup_append] at hnodup
    have hk : k ∉ JSMap.keys c.cache := fun hmem =>
      hnodup.2.2 hmem (List.mem_cons_self k ks)
    have hstep : (c.set k v).cache = c.cache ++ [(k, v)] := by
      rw [set_not_full c k v (by simp at hlen; omega), JSMap.mapSet_of_not_mem _ _ _ hk]
    have hkeys : JSMap.keys (c.set k v).cache = JSMap.keys c.cache ++ [k] := by
      rw [hstep, JSMap.keys, List.map_append]
      rfl
    rw [List.foldl_cons, ih (c.set k v)]
    · rw [hstep, List.map_cons, List.append_assoc, List.singleton_append]
    · rw [hkeys, List.append_assoc, List.singleton_append, List.nodup_append]
      exact hnodup
    · rw [hstep, set_maxEntries, List.length_append]
      simp at hlen ⊢
      omega

theorem fillCache_cache (ks : List String) (v : String) (hnodup : ks.Nodup)
    (hlen : ks.length ≤ 500) :
    (fillCache ks v).cache = ks.map (fun k => (k, v)) := by
  have h := foldl_set_cache ks TranslationCache.new v
    (by simpa [TranslationCache.new, JSMap.keys] using hnodup)
    (by simpa [TranslationCache.new] using hlen)
  simpa [fillCache, TranslationCache.new] using h

theorem mapGet_pairs_of_mem (ks : List String) (k v : String) (h : k ∈ ks) :
    JSMap.mapGet (ks.map (fun k => (k, v))) k = some v := by
  induction ks with
  | nil => simp at h
  | cons k' ks ih =>
    by_cases hk : k' = k
    · simp [JSMap.mapGet_cons, hk]
    · rcases List.mem_cons.mp h with h' | h'
      · exact absurd h'.symm hk
      · simp [JSMap.mapGet_cons, hk, ih h']

theorem keys_pairs (ks : List String) (v : String) :
    JSMap.keys (ks.map (fun k => (k, v))) = ks := by
  induction ks with
  | nil => rfl
  | cons k ks ih =>
    rw [List.map_cons, JSMap.keys, List.map_cons]
    rw [JSMap.keys] at ih
    rw [ih]

/-- Unfolding of `TranslationCache.set` when the cache is at capacity and the
oldest key is the empty string: JavaScript's `if (firstKey)` is false, so no
entry is deleted. -/
theorem set_full_firstKey_empty (c : TranslationCache) (k v : String)
    (hfull : c.maxEntries ≤ c.cache.length)
    (hfirst : JSMap.firstKey c.cache = some "") :
    (c.set k v).cache = JSMap.mapSet c.cache k v := by
  rw [TranslationCache.set]
  simp [hfull, hfirst]

/-- Unfolding of `TranslationCache.set` when the cache is at capacity and the
oldest key is truthy (nonempty): that oldest key is deleted first. -/
theorem set_full_firstKey_nonempty (c : TranslationCache) (k v fk : String)
    (hfull : c.maxEntries ≤ c.cache.length)
    (hfirst : JSMap.firstKey c.cache = some fk) (hfk : ¬ fk = "") :
    (c.set k v).cache = JSMap.mapSet (JSMap.mapDelete c.cache fk) k v := by
  rw [TranslationCache.set]
  simp [hfull, hfirst, hfk]

theorem fillCache_snoc (ks : List String) (k v : String) :
    fillCache (ks ++ [k]) v = (fillCache ks v).set k v := by
  rw [fillCache, fillCache, List.foldl_append, List.foldl_cons, List.foldl_nil]

/-! ### The 501-key insertion run exercising the full-capacity path -/

/-- Shared computation: inserting the 501 pairwise-distinct keys
`akey 0 = "", akey 1, …, akey 500` into a fresh cache appends all 501 entries.
The 501st insertion finds the cache at capacity, reads the oldest key — the
empty string — and the JavaScript truthiness guard `if (firstKey)` then skips
the eviction, so `Map.set` grows the map to 501 entries. -/
theorem fill_501_cache :
    (fillCache ((List.range 501).map akey) "v").cache
      = ((List.range 501).map akey).map (fun k => (k, "v")) := by
  have h501 : (501 : ℕ) = 500 + 1 := rfl
  have hsplit : (List.range 501).map akey = (List.range 500).map akey ++ [akey 500] := by
    rw [h501, List.range_succ, List.map_append]
    rfl
  have h500 : (fillCache ((List.range 500).map akey) "v").cache
      = ((List.range 500).map akey).map (fun k => (k, "v")) :=
    fillCache_cache _ _ ((List.nodup_range 500).map akey_injective) (by simp)
  have hmax : (fillCache ((List.range 500).map akey) "v").maxEntries = 500 :=
    fillCache_maxEntries _ _
  have hfold : fillCache ((List.range 501).map akey) "v"
      = (fillCache ((List.range 500).map akey) "v").set (akey 500) "v" := by
    rw [hsplit, fillCache_snoc]
  obtain ⟨tl, htl⟩ : ∃ tl, (List.range 500).map akey = akey 0 :: tl := by
    have h500' : (500 : ℕ) = 499 + 1 := rfl
    rw [h500', List.range_succ_eq_map, List.map_cons]
    exact ⟨_, rfl⟩
  have hfirst : JSMap.firstKey (fillCache ((List.range 500).map akey) "v").cache = some "" := by
    have hempty : akey 0 = "" := by decide
    rw [h500, htl, List.map_cons, ← hempty]
    rfl
  have hlen500 : (fillCache ((List.range 500).map akey) "v").cache.length = 500 := by
    rw [h500]
    simp
  have hnotmem : akey 500 ∉ JSMap.keys (fillCache ((List.range 500).map akey) "v").cache := by
    rw [h500, keys_pairs]
    intro hmem
    rcases List.mem_map.mp hmem with ⟨i, hi, hik⟩
    have hieq : i = 500 := akey_injective hik
    rw [List.mem_range] at hi
    omega
  rw [hfold, set_full_firstKey_empty _ _ _ (le_of_eq (hmax.trans hlen500.symm)) hfirst,
    JSMap.mapSet_of_not_mem _ _ _ hnotmem, h500, hsplit, List.map_append]
  rfl

/-- C8: the claim states `entries.size <= maxEntries` after every sequence of
`set`/`clear` operations from the empty cache, but the code violates it: after
the 501 insertions of `fill_501_cache` (first key the empty string), the cache
holds 501 entries while `maxEntries = 500`. The class's own documentation says
the cache is "Limited to 500 entries to prevent memory issues"; the truthiness
guard `if (firstKey)` wrongly treats the empty-string oldest key as "no key",
so this is a slip in the code, not intent. -/
theorem cache_size_bound_violated :
    (fillCache ((List.range 501).map akey) "v").maxEntries
      < (fillCache ((List.range 501).map akey) "v").size := by
  simp only [TranslationCache.size, fillCache_maxEntries, fill_501_cache,
    List.length_map, List.length_range]
  omega

/-- C9: the claim states that after inserting `maxEntries + 1` distinct keys
the cache holds exactly `maxEntries` entries with the first-inserted key
evicted; on the code this fails when the first-inserted key is the empty
string: all 501 entries survive (size `501 ≠ 500`) and the first key is still
present. -/
theorem cache_eviction_skipped :
    (fillCache ((List.range 501).map akey) "v").get (akey 0) = some "v"
      ∧ ¬ (fillCache ((List.range 501).map akey) "v").size = 500 := by
  constructor
  · simp only [TranslationCache.get, fill_501_cache]
    exact mapGet_pairs_of_mem _ _ _ (List.mem_map_of_mem akey (by simp))
  · simp only [TranslationCache.size, fill_501_cache, List.length_map, List.length_range]
    omega

/-! ### `set` on an existing key at capacity (claim C7) -/

theorem fillB_cache :
    (fillCache ((List.range 500).map bkey) "v").cache
      = ((List.range 500).map bkey).map (fun k => (k, "v")) :=
  fillCache_cache _ _ ((List.nodup_range 500).map bkey_injective) (by simp)

theorem bkey_head :
    (List.range 500).map bkey = bkey 0 :: (List.range 499).map (fun i => bkey (i + 1)) := by
  have h500 : (500 : ℕ) = 499 + 1 := rfl
  rw [h500, List.range_succ_eq_map, List.map_cons, List.map_map]
  congr 1

theorem bkey_zero_not_mem_tail :
    bkey 0 ∉ (List.range 499).map (fun i => bkey (i + 1)) := by
  intro hmem
  rcases List.mem_map.mp hmem with ⟨i, _, hik⟩
  have : i + 1 = 0 := bkey_injective hik
  omega

/-- C7 counterexample: the claim says `set` evicts only when inserting a *new*
key would exceed `maxEntries`, and that `set` on a key already present only
overwrites that key's value, leaving every other entry present.  On the code,
with the cache at capacity (500 entries `bkey 0 … bkey 499`), calling `set` on
the already-present key `bkey 1` nevertheless evicts the unrelated oldest
entry `bkey 0`: before the call both keys are present; afterwards `bkey 0` is
gone. -/
theorem set_existing_key_evicts :
    (fillCache ((List.range 500).map bkey) "v").get (bkey 0) = some "v"
      ∧ (fillCache ((List.range 500).map bkey) "v").get (bkey 1) = some "v"
      ∧ ((fillCache ((List.range 500).map bkey) "v").set (bkey 1) "w").get (bkey 0) = none := by
  have hmax : (fillCache ((List.range 500).map bkey) "v").maxEntries = 500 :=
    fillCache_maxEntries _ _
  have hlen : (fillCache ((List.range 500).map bkey) "v").cache.length = 500 := by
    rw [fillB_cache]
    simp
  have hfirst : JSMap.firstKey (fillCache ((List.range 500).map bkey) "v").cache
      = some (bkey 0) := by
    rw [fillB_cache, bkey_head, List.map_cons]
    rfl
  have htailpairs : JSMap.mapDelete (fillCache ((List.range 500).map bkey) "v").cache (bkey 0)
      = ((List.range 499).map (fun i => bkey (i + 1))).map (fun k => (k, "v")) := by
    rw [fillB_cache, bkey_head, List.map_cons]
    exact JSMap.mapDelete_cons_self (bkey 0, "v") _
      (by rw [keys_pairs]; exact bkey_zero_not_mem_tail)
  refine ⟨?_, ?_, ?_⟩
  · rw [TranslationCache.get, fillB_cache]
    exact mapGet_pairs_of_mem _ _ _ (List.mem_map_of_mem bkey (by simp))
  · rw [TranslationCache.get, fillB_cache]
    exact mapGet_pairs_of_mem _ _ _ (List.mem_map_of_mem bkey (by simp))
  · rw [TranslationCache.get,
      set_full_firstKey_nonempty _ _ _ _ (le_of_eq (hmax.trans hlen.symm)) hfirst (by decide),
      htailpairs, JSMap.mapGet_mapSet_ne _ _ _ _ (by decide)]
    exact JSMap.mapGet_eq_none _ _ (by rw [keys_pairs]; exact bkey_zero_not_mem_tail)

/-- C7 (amended): eviction in `TranslationCache.set` is keyed on
`size >= maxEntries` alone, even when the key being written is already
present.  Below capacity the claim's frame property does hold: for every
cache state with `size < maxEntries` and every key `k` already present,
`set(k, v)` only overwrites `k`'s value — `k` maps to `v` afterwards, every
other key's lookup is unchanged, the insertion order of the keys (hence `k`'s
age) is unchanged, and the size is unchanged. -/
theorem set_existing_key_overwrites (c : TranslationCache) (k v : String)
    (hlen : c.cache.length < c.maxEntries) (hmem : k ∈ JSMap.keys c.cache) :
    (c.set k v).get k = some v
      ∧ (∀ k', ¬ k' = k → (c.set k v).get k' = c.get k')
      ∧ JSMap.keys (c.set k v).cache = JSMap.keys c.cache
      ∧ (c.set k v).size = c.size := by
  have hcache : (c.set k v).cache = JSMap.mapSet c.cache k v := set_not_full c k v hlen
  refine ⟨?_, ?_, ?_, ?_⟩
  · rw [TranslationCache.get, hcache]
    exact JSMap.mapGet_mapSet_self c.cache k v
  · intro k' hk'
    rw [TranslationCache.get, TranslationCache.get, hcache]
    exact JSMap.mapGet_mapSet_ne c.cache k v k' hk'
  · rw [hcache]
    exact JSMap.keys_mapSet_of_mem c.cache k v hmem
  · rw [TranslationCache.size, TranslationCache.size, hcache]
    exact JSMap.length_mapSet_of_mem c.cache k v hmem

/-- A concrete two-entry cache, far below capacity. -/
def smallCache : TranslationCache := (TranslationCache.new.set "x" "1").set "y" "2"

/-- Witness for the amended C7 theorem at a concrete input: overwriting the
existing key `x` in the two-entry cache keeps `y` intact and stores the new
value. -/
theorem set_existing_key_overwrites_witness :
    (smallCache.set "x" "3").get "x" = some "3"
      ∧ (smallCache.set "x" "3").get "y" = smallCache.get "y" :=
  ⟨(set_existing_key_overwrites smallCache "x" "3" (by decide) (by decide)).1,
   (set_existing_key_overwrites smallCache "x" "3" (by decide) (by decide)).2.1 "y" (by decide)⟩

/-! ## `RateLimiter` (rateLimiter.ts, lines 12-136)

Times are rationals (milliseconds).  `Date.now()` is modelled by the explicit
`clock` field: wherever the source reads the clock, the model lets the
environment advance `clock` by a delta carried by the queued request
(nonnegative in every theorem that needs it), and the `setTimeout` sleep
advances `clock` by exactly the requested duration.  `new Date()` midnight
arithmetic is modelled by `nextLocalMidnight`, with the environment's UTC
offset (in ms) carried in the `tzOffset` field. -/

/-- One day in milliseconds. -/
def msPerDay : ℚ := 86400000

/-- The first local-midnight boundary strictly after time `t`, for a timezone
whose midnights fall at `tz + msPerDay * n` (`n : ℤ`).  This is what
`tomorrow.setHours(0, 0, 0, 0)` after `setDate(getDate() + 1)` computes. -/
def nextLocalMidnight (tz t : ℚ) : ℚ :=
  tz + msPerDay * (⌊(t - tz) / msPerDay⌋ + 1)

/-- The `RateLimiter` instance fields (rateLimiter.ts lines 13-21), plus the
modelled environment: `clock` (the current `Date.now()` value) and `tzOffset`
(alignment of the environment's local midnights). -/
structure RateLimiter where
  minInterval : ℚ
  maxRequestsPerDay : ℕ
  lastRequestTime : ℚ
  dailyRequestCount : ℕ
  dailyResetTime : ℚ
  clock : ℚ
  tzOffset : ℚ

namespace RateLimiter

/-- Let wall-clock time advance by `d` milliseconds. -/
def tick (st : RateLimiter) (d : ℚ) : RateLimiter := { st with clock := st.clock + d }

/-- `calculateNextReset` (lines 40-45): point `dailyResetTime` at the next
local midnight. -/
def calculateNextReset (st : RateLimiter) : RateLimiter :=
  { st with dailyResetTime := nextLocalMidnight st.tzOffset st.clock }

/-- The constructor (lines 28-35), at environment time `t0`:
`minInterval = (60000 / requestsPerMinute) * 1.1`, daily counter zero, and the
first daily reset scheduled for the coming midnight. -/
def create (requestsPerMinute : ℚ) (requestsPerDay : ℕ) (tz t0 : ℚ) : RateLimiter :=
  calculateNextReset
    { minInterval := 60000 / requestsPerMinute * 1.1
      maxRequestsPerDay := requestsPerDay
      lastRequestTime := 0
      dailyRequestCount := 0
      dailyResetTime := 0
      clock := t0
      tzOffset := tz }

/-- `checkDailyLimit` (lines 50-60): if the clock has passed `dailyResetTime`,
zero the counter and schedule the next reset; then report whether
`dailyRequestCount >= maxRequestsPerDay`.  Returns the flag together with the
mutated instance. -/
def checkDailyLimit (st : RateLimiter) : Bool × RateLimiter :=
  let st1 := if st.dailyResetTime ≤ st.clock
    then calculateNextReset { st with dailyRequestCount := 0 }
    else st
  (decide (st1.maxRequestsPerDay ≤ st1.dailyRequestCount), st1)

/-- One queued unit of work: the value its promise eventually settles with
(`Except.ok` for resolve, `Except.error` for reject), how long the `await`
of the unit takes, and the environment clock drifts at the three points in
one loop iteration where the source reads `Date.now()` (line 51 inside
`checkDailyLimit`, line 97 before the pacing wait, line 105 after it). -/
structure Req (ε α : Type) where
  behavior : Except ε α
  latency : ℚ
  preCheckDelay : ℚ
  preWaitDelay : ℚ
  postWaitDelay : ℚ

/-- What one queued request's promise sees: either the unit was dispatched at
`dispatchTime` (the value written to `lastRequestTime`) and settled with its
own `result`, or the request was bulk-rejected by the daily-quota drain with
the quota error message. -/
inductive Outcome (ε α : Type) where
  | settled (dispatchTime : ℚ) (result : Except ε α)
  | quotaRejected (message : String)

/-- The message of the `Error` thrown on daily-quota exhaustion (line 88). -/
def quotaMessage : String := "Daily API quota exceeded. Please try again tomorrow."

/-- The instance state right after lines 94-106 dispatched `req`: starting
from the post-`checkDailyLimit` state, the clock drifts by `preWaitDelay`
before the `Date.now()` of line 97; if the time since the last request is
below `minInterval` the loop sleeps exactly the difference; the clock drifts
by `postWaitDelay` before the `Date.now()` of line 105, whose value is
written to `lastRequestTime`; and the daily counter is incremented. -/
def dispatchState {ε α : Type} (st : RateLimiter) (req : Req ε α) : RateLimiter :=
  let stB := ((st.tick req.preCheckDelay).checkDailyLimit).2
  let stC := stB.tick req.preWaitDelay
  let timeSinceLast := stC.clock - stC.lastRequestTime
  let stD := if timeSinceLast < stC.minInterval
    then stC.tick (stC.minInterval - timeSinceLast)
    else stC
  let stE := stD.tick req.postWaitDelay
  { stE with lastRequestTime := stE.clock,
             dailyRequestCount := stE.dailyRequestCount + 1 }

/-- `processQueue` (lines 75-117), run over the queue present at entry:
per iteration it consults `checkDailyLimit` and on `true` rejects every
remaining request with the quota error and stops; otherwise it pops the head,
paces and dispatches it (`dispatchState`), awaits the unit for `latency`
milliseconds and settles the caller's promise with the unit's own outcome. -/
def processQueue {ε α : Type} : RateLimiter → List (Req ε α) → List (Outcome ε α) × RateLimiter
  | st, [] => ([], st)
  | st, req :: rest =>
    if ((st.tick req.preCheckDelay).checkDailyLimit).1 then
      ((req :: rest).map (fun _ => Outcome.quotaRejected quotaMessage),
       ((st.tick req.preCheckDelay).checkDailyLimit).2)
    else
      (Outcome.settled (st.dispatchState req).lastRequestTime req.behavior
          :: (processQueue ((st.dispatchState req).tick req.latency) rest).1,
       (processQueue ((st.dispatchState req).tick req.latency) rest).2)

/-- The record returned by `getDailyUsage` (lines 122-135). -/
structure DailyUsage where
  used : ℕ
  limit : ℕ
  remaining : ℤ
  resetsAt : ℚ

/-- `getDailyUsage` (lines 122-135): it first re-runs the daily-reset check
(mutating the instance exactly like the reset step of `checkDailyLimit`),
then reports the counter, the limit, their difference and the reset time. -/
def getDailyUsage (st : RateLimiter) : DailyUsage × RateLimiter :=
  let st1 := if st.dailyResetTime ≤ st.clock
    then calculateNextReset { st with dailyRequestCount := 0 }
    else st
  ({ used := st1.dailyRequestCount, limit := st1.maxRequestsPerDay,
     remaining := (st1.maxRequestsPerDay : ℤ) - (st1.dailyRequestCount : ℤ),
     resetsAt := st1.dailyResetTime }, st1)

/-- The dispatch start times (the successive values of `lastRequestTime`)
among a list of outcomes, in order. -/
def dispatchTimes {ε α : Type} (outs : List (Outcome ε α)) : List ℚ :=
  outs.filterMap (fun o => match o with
    | Outcome.settled t _ => some t
    | Outcome.quotaRejected _ => none)

/-- Forget dispatch times: what each promise settles with —
`Sum.inl` the unit's own outcome, or `Sum.inr` the quota error message. -/
def Outcome.toResult {ε α : Type} : Outcome ε α → Except ε α ⊕ String
  | Outcome.settled _ r => Sum.inl r
  | Outcome.quotaRejected m => Sum.inr m

/-! ### Field-preservation lemmas -/

theorem tick_minInterval (st : RateLimiter) (d : ℚ) : (st.tick d).minInterval = st.minInterval := rfl

theorem tick_lastRequestTime (st : RateLimiter) (d : ℚ) :
    (st.tick d).lastRequestTime = st.lastRequestTime := rfl

theorem tick_clock (st : RateLimiter) (d : ℚ) : (st.tick d).clock = st.clock + d := rfl

theorem checkDailyLimit_minInterval (st : RateLimiter) :
    ((st.checkDailyLimit).2).minInterval = st.minInterval := by
  rw [checkDailyLimit]
  split <;> rfl

theorem checkDailyLimit_lastRequestTime (st : RateLimiter) :
    ((st.checkDailyLimit).2).lastRequestTime = st.lastRequestTime := by
  rw [checkDailyLimit]
  split <;> rfl

theorem checkDailyLimit_clock (st : RateLimiter) :
    ((st.checkDailyLimit).2).clock = st.clock := by
  rw [checkDailyLimit]
  split <;> rfl

theorem checkDailyLimit_maxRequestsPerDay (st : RateLimiter) :
    ((st.checkDailyLimit).2).maxRequestsPerDay = st.maxRequestsPerDay := by
  rw [checkDailyLimit]
  split <;> rfl

theorem create_minInterval (R : ℚ) (rpd : ℕ) (tz t0 : ℚ) :
    (create R rpd tz t0).minInterval = 60000 / R * 1.1 := rfl

theorem dispatchState_minInterval {ε α : Type} (st : RateLimiter) (req : Req ε α) :
    (st.dispatchState req).minInterval = st.minInterval := by
  rw [dispatchState]
  split <;>
    simp [tick_minInterval, checkDailyLimit_minInterval]

theorem dispatchState_clock_eq {ε α : Type} (st : RateLimiter) (req : Req ε α) :
    (st.dispatchState req).clock = (st.dispatchState req).lastRequestTime := rfl

/-- The pacing lower bound: whatever the clock drifts are, the freshly stamped
`lastRequestTime` is at least `minInterval` past the previous one — either the
loop slept exactly up to that point, or the elapsed gap was already at least
`minInterval`. -/
theorem dispatchState_lastRequestTime_lb {ε α : Type} (st : RateLimiter) (req : Req ε α)
    (h3 : 0 ≤ req.postWaitDelay) :
    st.lastRequestTime + st.minInterval ≤ (st.dispatchState req).lastRequestTime := by
  rw [dispatchState]
  split
  case isTrue h =>
    simp only [tick_clock, tick_lastRequestTime, tick_minInterval,
      checkDailyLimit_clock, checkDailyLimit_lastRequestTime, checkDailyLimit_minInterval] at h ⊢
    linarith
  case isFalse h =>
    simp only [tick_clock, tick_lastRequestTime, tick_minInterval,
      checkDailyLimit_clock, checkDailyLimit_lastRequestTime, checkDailyLimit_minInterval] at h ⊢
    linarith

theorem processQueue_cons_quota {ε α : Type} (st : RateLimiter) (req : Req ε α)
    (rest : List (Req ε α)) (h : ((st.tick req.preCheckDelay).checkDailyLimit).1 = true) :
    processQueue st (req :: rest)
      = ((req :: rest).map (fun _ => Outcome.quotaRejected quotaMessage),
         ((st.tick req.preCheckDelay).checkDailyLimit).2) := by
  rw [processQueue, if_pos h]

theorem processQueue_cons_dispatch {ε α : Type} (st : RateLimiter) (req : Req ε α)
    (rest : List (Req ε α)) (h : ((st.tick req.preCheckDelay).checkDailyLimit).1 = false) :
    processQueue st (req :: rest)
      = (Outcome.settled (st.dispatchState req).lastRequestTime req.behavior
            :: (processQueue ((st.dispatchState req).tick req.latency) rest).1,
         (processQueue ((st.dispatchState req).tick req.latency) rest).2) := by
  rw [processQueue, if_neg (by simp [h])]

theorem dispatchTimes_nil {ε α : Type} : dispatchTimes (ε := ε) (α := α) [] = [] := rfl

theorem dispatchTimes_cons_settled {ε α : Type} (t : ℚ) (r : Except ε α)
    (outs : List (Outcome ε α)) :
    dispatchTimes (Outcome.settled t r :: outs) = t :: dispatchTimes outs := by
  simp [dispatchTimes]

theorem dispatchTimes_map_quota {ε α β : Type} (l : List β) (m : String) :
    dispatchTimes (l.map (fun _ => (Outcome.quotaRejected m : Outcome ε α))) = [] := by
  induction l with
  | nil => rfl
  | cons b l ih => simp [dispatchTimes, ih]

/-- Central pacing lemma: along any run of `processQueue`, starting from the
current `lastRequestTime`, consecutive dispatch stamps are always at least
`minInterval` apart (only nonnegative clock drift after the pacing sleep is
assumed of the environment). -/
theorem dispatchTimes_chain {ε α : Type} (st : RateLimiter) (reqs : List (Req ε α))
    (hd : ∀ r ∈ reqs, 0 ≤ r.postWaitDelay) :
    List.Chain (fun a b => a + st.minInterval ≤ b) st.lastRequestTime
      (dispatchTimes (processQueue st reqs).1) := by
  induction reqs generalizing st with
  | nil => simp [processQueue, dispatchTimes_nil]
  | cons req rest ih =>
    rcases hq : ((st.tick req.preCheckDelay).checkDailyLimit).1 with _ | _
    · rw [processQueue_cons_dispatch st req rest hq, dispatchTimes_cons_settled]
      refine List.Chain.cons (dispatchState_lastRequestTime_lb st req
        (hd req (List.mem_cons_self req rest))) ?_
      have hih := ih ((st.dispatchState req).tick req.latency)
        (fun r hr => hd r (List.mem_cons_of_mem req hr))
      rw [tick_minInterval, dispatchState_minInterval, tick_lastRequestTime] at hih
      exact hih
    · rw [processQueue_cons_quota st req rest hq, dispatchTimes_map_quota]
      exact List.Chain.nil

end RateLimiter

open RateLimiter

/-! ### Claim C1: daily-quota exhaustion drains the whole queue -/

/-- C1: if at the moment an item would be dispatched the daily check (after
applying any pending daily reset) reports that the dispatch count has reached
the `requestsPerDay` ceiling, then that item and every other item still in
the queue are all rejected with the quota error
(`Daily API quota exceeded. Please try again tomorrow.`), none of them is
dispatched (the final state is exactly the post-check state: no
`lastRequestTime` stamp, no counter increment), and the processing loop
stops. -/
theorem quota_exhaustion_drains_queue {ε α : Type} (st : RateLimiter)
    (req : Req ε α) (rest : List (Req ε α))
    (h : ((st.tick req.preCheckDelay).checkDailyLimit).1 = true) :
    processQueue st (req :: rest)
      = ((req :: rest).map (fun _ => Outcome.quotaRejected quotaMessage),
         ((st.tick req.preCheckDelay).checkDailyLimit).2) :=
  processQueue_cons_quota st req rest h

/-- A concrete limiter state whose daily counter has reached its ceiling of 2
before the next reset boundary. -/
def quotaState : RateLimiter :=
  { minInterval := 2750, maxRequestsPerDay := 2, lastRequestTime := 0,
    dailyRequestCount := 2, dailyResetTime := 100, clock := 0, tzOffset := 0 }

/-- A concrete queued unit of work (no clock drift, instant completion). -/
def quietReq : Req String ℕ :=
  { behavior := Except.ok 1, latency := 0, preCheckDelay := 0,
    preWaitDelay := 0, postWaitDelay := 0 }

theorem quotaState_check :
    ((quotaState.tick quietReq.preCheckDelay).checkDailyLimit).1 = true := by
  rw [RateLimiter.checkDailyLimit]
  rw [if_neg (by norm_num [quotaState, quietReq, RateLimiter.tick])]
  norm_num [quotaState, quietReq, RateLimiter.tick]

/-- Witness for C1 at a concrete input: both queued items are bulk-rejected. -/
theorem quota_exhaustion_drains_queue_witness :
    processQueue quotaState [quietReq, quietReq]
      = ([Outcome.quotaRejected quotaMessage, Outcome.quotaRejected quotaMessage],
         ((quotaState.tick quietReq.preCheckDelay).checkDailyLimit).2) := by
  have h := quota_exhaustion_drains_queue quotaState quietReq [quietReq] quotaState_check
  simpa using h

/-! ### Claim C2: pacing invariant -/

/-- C2: for every sequence of submissions to a controller constructed with
`requestsPerMinute = R`, consecutive dispatch start times (the successive
`lastRequestTime` stamps) are at least `60000 / R * 1.1` milliseconds apart,
for every index `i` — assuming only that the environment clock does not run
backwards after the pacing sleep (`0 ≤ postWaitDelay`). -/
theorem pacing_invariant {ε α : Type} (R : ℚ) (rpd : ℕ) (tz t0 : ℚ)
    (reqs : List (Req ε α))
    (hd : ∀ r ∈ reqs, 0 ≤ r.postWaitDelay)
    (i : ℕ)
    (hi : i + 1 < (dispatchTimes (processQueue (create R rpd tz t0) reqs).1).length) :
    (dispatchTimes (processQueue (create R rpd tz t0) reqs).1).get ⟨i, by omega⟩
        + 60000 / R * 1.1
      ≤ (dispatchTimes (processQueue (create R rpd tz t0) reqs).1).get ⟨i + 1, hi⟩ := by
  have hchain := dispatchTimes_chain (create R rpd tz t0) reqs hd
  have hchain' : List.Chain' (fun a b => a + (create R rpd tz t0).minInterval ≤ b)
      ((create R rpd tz t0).lastRequestTime
        :: dispatchTimes (processQueue (create R rpd tz t0) reqs).1) := hchain
  have htail : List.Chain' (fun a b => a + (create R rpd tz t0).minInterval ≤ b)
      (dispatchTimes (processQueue (create R rpd tz t0) reqs).1) := hchain'.tail
  have hres := List.chain'_iff_get.mp htail i (by omega)
  rw [create_minInterval] at hres
  exact hres

/-- Concrete two-request run used by the pacing witness: a limiter created
with RPM 60 at time 0 dispatches the two instant units at clock times 1100
and 2200 (minInterval is 1100). -/
theorem pacing_run_eval :
    dispatchTimes (processQueue (create 60 100 (0:ℚ) 0) [quietReq, quietReq]).1
      = [1100, 2200] := by
  norm_num [processQueue, dispatchState, create, RateLimiter.calculateNextReset,
    nextLocalMidnight, RateLimiter.checkDailyLimit, RateLimiter.tick, msPerDay,
    dispatchTimes, quietReq, List.filterMap_cons, List.filterMap_nil]

/-- Witness for C2 at a concrete input: in the two-dispatch run the gap
between the dispatch stamps respects `60000 / 60 * 1.1`. -/
theorem pacing_invariant_witness :
    (dispatchTimes (processQueue (create 60 100 (0:ℚ) 0) [quietReq, quietReq]).1).get
        ⟨0, by rw [pacing_run_eval]; simp⟩ + 60000 / 60 * 1.1
      ≤ (dispatchTimes (processQueue (create 60 100 (0:ℚ) 0) [quietReq, quietReq]).1).get
        ⟨1, by rw [pacing_run_eval]; simp⟩ :=
  pacing_invariant 60 100 0 0 [quietReq, quietReq]
    (by
      intro r hr
      rcases List.mem_cons.mp hr with rfl | hr
      · norm_num [quietReq]
      · rcases List.mem_cons.mp hr with rfl | hr
        · norm_num [quietReq]
        · simp at hr)
    0 (by rw [pacing_run_eval]; simp)

/-! ### Claim C3: strict FIFO dispatch order -/

theorem map_toResult_quota {ε α β : Type} (l : List β) (m : String) :
    ((l.map (fun _ => (Outcome.quotaRejected m : Outcome ε α))).map Outcome.toResult)
      = List.replicate l.length (Sum.inr m) := by
  induction l with
  | nil => rfl
  | cons b l ih => simp [Outcome.toResult, ih, List.replicate_succ]

/-- C3: units of work are dispatched strictly in submission order.  Every run
of the processing loop settles the promises positionally: there is a `k` such
that the first `k` submissions (exactly in queue order, each with its own
unit's outcome) are the dispatched ones, and every later submission is
quota-rejected — the loop always pops the head, so a later submission is
never dispatched before an earlier one. -/
theorem fifo_order {ε α : Type} (st : RateLimiter) (reqs : List (Req ε α)) :
    ∃ k, k ≤ reqs.length
      ∧ ((processQueue st reqs).1).map Outcome.toResult
          = (reqs.take k).map (fun r => Sum.inl r.behavior)
            ++ List.replicate (reqs.length - k) (Sum.inr quotaMessage) := by
  induction reqs generalizing st with
  | nil => exact ⟨0, by simp [processQueue]⟩
  | cons req rest ih =>
    rcases hq : ((st.tick req.preCheckDelay).checkDailyLimit).1 with _ | _
    · obtain ⟨k, hk, hmap⟩ := ih ((st.dispatchState req).tick req.latency)
      refine ⟨k + 1, by simp; omega, ?_⟩
      rw [processQueue_cons_dispatch st req rest hq]
      simp only [List.map_cons, Outcome.toResult, hmap, List.take_succ_cons,
        List.length_cons, Nat.succ_sub_succ, List.cons_append]
    · refine ⟨0, Nat.zero_le _, ?_⟩
      rw [processQueue_cons_quota st req rest hq]
      simp [map_toResult_quota, Outcome.toResult, List.replicate_succ]

/-! ### Claim C6: unit outcomes are passed through unchanged -/

/-- C6: every dispatched unit settles its caller's promise with exactly the
unit's own outcome: if position `i` of the run settles (`Outcome.settled`),
then its `Except` value is precisely the `behavior` of the `i`-th submitted
request — a rejection is the unit's own error, not wrapped and not replaced,
and a resolution is the unit's own result. -/
theorem unit_outcome_passthrough {ε α : Type} (st : RateLimiter) (reqs : List (Req ε α))
    (i : ℕ) (t : ℚ) (r : Except ε α)
    (hset : ((processQueue st reqs).1).get? i = some (Outcome.settled t r)) :
    ∃ hi : i < reqs.length, r = (reqs.get ⟨i, hi⟩).behavior := by
  induction reqs generalizing st i with
  | nil => simp [processQueue] at hset
  | cons req rest ih =>
    rcases hq : ((st.tick req.preCheckDelay).checkDailyLimit).1 with _ | _
    · rw [processQueue_cons_dispatch st req rest hq] at hset
      cases i with
      | zero =>
        refine ⟨by simp, ?_⟩
        simp only [List.get?_cons_zero, Option.some.injEq] at hset
        cases hset
        rfl
      | succ n =>
        rw [List.get?_cons_succ] at hset
        obtain ⟨hn, hr⟩ := ih ((st.dispatchState req).tick req.latency) n hset
        exact ⟨by simpa using Nat.succ_lt_succ hn, by simpa using hr⟩
    · rw [processQueue_cons_quota st req rest hq] at hset
      rcases hlt : ((req :: rest).map
          (fun _ => (Outcome.quotaRejected quotaMessage : Outcome ε α))).get? i with _ | o
      · rw [hlt] at hset
        cases hset
      · rw [hlt] at hset
        have hmem := List.get?_mem hlt
        rcases List.mem_map.mp hmem with ⟨_, _, hval⟩
        rw [← hval] at hset
        cases hset

/-- A concrete unit of work that rejects with the domain error `boom`. -/
def failingReq : Req String ℕ :=
  { behavior := Except.error "boom", latency := 0, preCheckDelay := 0,
    preWaitDelay := 0, postWaitDelay := 0 }

/-- Concrete one-request run used by the passthrough witness: the failing unit
is dispatched at clock time 1100 and its own error is what the promise sees. -/
theorem failing_run_eval :
    (processQueue (create 60 100 (0:ℚ) 0) [failingReq]).1
      = [Outcome.settled 1100 (Except.error "boom")] := by
  norm_num [processQueue, dispatchState, create, RateLimiter.calculateNextReset,
    nextLocalMidnight, RateLimiter.checkDailyLimit, RateLimiter.tick, msPerDay, failingReq]

/-- Witness for C6 at a concrete input: the rejecting unit's promise rejects
with exactly `boom`. -/
theorem unit_outcome_passthrough_witness :
    ∃ hi : 0 < ([failingReq] : List (Req String ℕ)).length,
      (Except.error "boom" : Except String ℕ)
        = (([failingReq] : List (Req String ℕ)).get ⟨0, hi⟩).behavior :=
  unit_outcome_passthrough (create 60 100 0 0) [failingReq] 0 1100 (Except.error "boom")
    (by rw [failing_run_eval]; rfl)

/-! ### Midnight arithmetic -/

theorem msPerDay_pos : (0:ℚ) < msPerDay := by norm_num [msPerDay]

theorem lt_nextLocalMidnight (tz t : ℚ) : t < nextLocalMidnight tz t := by
  simp only [nextLocalMidnight, msPerDay]
  have h := Int.lt_floor_add_one ((t - tz) / (86400000 : ℚ))
  rw [div_lt_iff₀ (by norm_num : (0:ℚ) < 86400000)] at h
  linarith

theorem nextLocalMidnight_le (tz t : ℚ) : nextLocalMidnight tz t ≤ t + msPerDay := by
  simp only [nextLocalMidnight, msPerDay]
  have h := Int.floor_le ((t - tz) / (86400000 : ℚ))
  rw [le_div_iff₀ (by norm_num : (0:ℚ) < 86400000)] at h
  linarith

theorem nextLocalMidnight_of_within (tz t : ℚ) (n : ℤ)
    (h1 : tz + msPerDay * n ≤ t) (h2 : t < tz + msPerDay * n + msPerDay) :
    nextLocalMidnight tz t = tz + msPerDay * n + msPerDay := by
  simp only [msPerDay] at h1 h2 ⊢
  rw [nextLocalMidnight, msPerDay]
  have hfl : ⌊(t - tz) / (86400000 : ℚ)⌋ = n := by
    rw [Int.floor_eq_iff]
    constructor
    · rw [le_div_iff₀ (by norm_num : (0:ℚ) < 86400000)]
      linarith
    · rw [div_lt_iff₀ (by norm_num : (0:ℚ) < 86400000)]
      linarith
  rw [hfl]
  ring

/-! ### Unfoldings of `checkDailyLimit` -/

theorem checkDailyLimit_of_past (st : RateLimiter) (h : st.dailyResetTime ≤ st.clock) :
    st.checkDailyLimit
      = (decide (st.maxRequestsPerDay ≤ 0),
         calculateNextReset { st with dailyRequestCount := 0 }) := by
  rw [RateLimiter.checkDailyLimit]
  simp [h, RateLimiter.calculateNextReset, Nat.le_zero]

theorem checkDailyLimit_of_future (st : RateLimiter) (h : ¬ st.dailyResetTime ≤ st.clock) :
    st.checkDailyLimit = (decide (st.maxRequestsPerDay ≤ st.dailyRequestCount), st) := by
  rw [RateLimiter.checkDailyLimit]
  simp [h]

/-! ### Claim C5: the daily reset reopens the limiter -/

/-- C5: whenever the clock has passed `dailyResetTime` at the moment the
check runs, the daily counter is reset to 0 and `dailyResetTime` is moved to
the next local-midnight boundary — strictly in the future, at most one day
away, and exactly one day after the old boundary whenever the old value was a
midnight boundary whose day the clock is still in.  Consequently (whatever
the old counter was, e.g. at the `requestsPerDay` ceiling) the quota check
reports `false` as long as the ceiling is positive, and the head submission
is dispatched with its own outcome. -/
theorem daily_reset_reopens {ε α : Type} (st : RateLimiter) (req : Req ε α)
    (rest : List (Req ε α))
    (hpast : st.dailyResetTime ≤ st.clock + req.preCheckDelay)
    (hpos : 0 < st.maxRequestsPerDay) :
    ((st.tick req.preCheckDelay).checkDailyLimit).1 = false
      ∧ (((st.tick req.preCheckDelay).checkDailyLimit).2).dailyRequestCount = 0
      ∧ (((st.tick req.preCheckDelay).checkDailyLimit).2).dailyResetTime
          = nextLocalMidnight st.tzOffset (st.clock + req.preCheckDelay)
      ∧ st.clock + req.preCheckDelay
          < (((st.tick req.preCheckDelay).checkDailyLimit).2).dailyResetTime
      ∧ (((st.tick req.preCheckDelay).checkDailyLimit).2).dailyResetTime
          ≤ st.clock + req.preCheckDelay + msPerDay
      ∧ (∀ n : ℤ, st.dailyResetTime = st.tzOffset + msPerDay * n →
          st.clock + req.preCheckDelay < st.dailyResetTime + msPerDay →
          (((st.tick req.preCheckDelay).checkDailyLimit).2).dailyResetTime
            = st.dailyResetTime + msPerDay)
      ∧ ∃ t, ((processQueue st (req :: rest)).1).get? 0
          = some (Outcome.settled t req.behavior) := by
  have hpast' : (st.tick req.preCheckDelay).dailyResetTime ≤ (st.tick req.preCheckDelay).clock := by
    simpa [RateLimiter.tick] using hpast
  have hcheck := checkDailyLimit_of_past (st.tick req.preCheckDelay) hpast'
  have hflag : ((st.tick req.preCheckDelay).checkDailyLimit).1 = false := by
    rw [hcheck]
    simpa using Nat.not_le.mpr hpos
  have hstate : ((st.tick req.preCheckDelay).checkDailyLimit).2
      = calculateNextReset { st.tick req.preCheckDelay with dailyRequestCount := 0 } := by
    rw [hcheck]
  refine ⟨hflag, ?_, ?_, ?_, ?_, ?_, ?_⟩
  · rw [hstate]
    rfl
  · rw [hstate]
    rfl
  · rw [hstate]
    exact lt_nextLocalMidnight st.tzOffset (st.clock + req.preCheckDelay)
  · rw [hstate]
    exact nextLocalMidnight_le st.tzOffset (st.clock + req.preCheckDelay)
  · intro n hn hwithin
    rw [hstate]
    show nextLocalMidnight st.tzOffset (st.clock + req.preCheckDelay) = _
    rw [hn] at hwithin ⊢
    exact nextLocalMidnight_of_within st.tzOffset (st.clock + req.preCheckDelay) n
      (by rw [hn] at hpast; exact hpast) hwithin
  · exact ⟨(st.dispatchState req).lastRequestTime,
      by rw [processQueue_cons_dispatch st req rest hflag]; rfl⟩

/-- A limiter at its daily ceiling whose reset boundary has just passed. -/
def staleState : RateLimiter :=
  { minInterval := 2750, maxRequestsPerDay := 2, lastRequestTime := 0,
    dailyRequestCount := 2, dailyResetTime := 50, clock := 100, tzOffset := 0 }

/-- Witness for C5 at a concrete input: on a limiter whose counter sits at its
ceiling of 2 but whose reset boundary has passed, the quota check reports
`false`, the counter restarts at 0, and the head submission is dispatched. -/
theorem daily_reset_reopens_witness :
    ((staleState.tick quietReq.preCheckDelay).checkDailyLimit).1 = false
      ∧ (((staleState.tick quietReq.preCheckDelay).checkDailyLimit).2).dailyRequestCount = 0
      ∧ ∃ t, ((processQueue staleState ([quietReq] : List (Req String ℕ))).1).get? 0
          = some (Outcome.settled t quietReq.behavior) := by
  have h := daily_reset_reopens staleState quietReq ([] : List (Req String ℕ))
    (by norm_num [staleState, quietReq]) (by norm_num [staleState])
  exact ⟨h.1, h.2.1, h.2.2.2.2.2.2⟩

/-! ### Claim C10: `getDailyUsage` is an observably mutating read -/

/-- C10: `getDailyUsage` is not side-effect free: it performs exactly the same
daily-reset mutation as the dispatch path — its final state coincides with
`checkDailyLimit`'s final state, so when the clock has not passed
`dailyResetTime` all controller state is left unchanged, and otherwise the
counter is zeroed and `dailyResetTime` recomputed to the next midnight — and
it returns `used` = the (post-reset) counter, `limit` = `maxRequestsPerDay`,
`remaining` = `maxRequestsPerDay - used`, and `resetsAt` = the (post-reset)
reset time. -/
theorem getDailyUsage_behavior (st : RateLimiter) :
    (st.getDailyUsage).2 = (st.checkDailyLimit).2
      ∧ (¬ st.dailyResetTime ≤ st.clock → (st.getDailyUsage).2 = st)
      ∧ (st.dailyResetTime ≤ st.clock →
          ((st.getDailyUsage).2).dailyRequestCount = 0
            ∧ ((st.getDailyUsage).2).dailyResetTime
                = nextLocalMidnight st.tzOffset st.clock)
      ∧ (st.getDailyUsage).1.used = ((st.getDailyUsage).2).dailyRequestCount
      ∧ (st.getDailyUsage).1.limit = st.maxRequestsPerDay
      ∧ (st.getDailyUsage).1.remaining
          = (st.maxRequestsPerDay : ℤ) - (((st.getDailyUsage).2).dailyRequestCount : ℤ)
      ∧ (st.getDailyUsage).1.resetsAt = ((st.getDailyUsage).2).dailyResetTime := by
  by_cases h : st.dailyResetTime ≤ st.clock
  · rw [RateLimiter.getDailyUsage, RateLimiter.checkDailyLimit]
    simp [h, RateLimiter.calculateNextReset]
  · rw [RateLimiter.getDailyUsage, RateLimiter.checkDailyLimit]
    simp [h]

/-- Witness for C10 at a concrete input: on `quotaState` (clock before the
reset boundary) the read mutates nothing and reports `remaining = 0`. -/
theorem getDailyUsage_behavior_witness :
    (quotaState.getDailyUsage).2 = quotaState
      ∧ (quotaState.getDailyUsage).1.remaining = 0 := by
  have hnr : ¬ quotaState.dailyResetTime ≤ quotaState.clock := by norm_num [quotaState]
  have h1 := (getDailyUsage_behavior quotaState).2.1 hnr
  refine ⟨h1, ?_⟩
  have h2 := (getDailyUsage_behavior quotaState).2.2.2.2.2.1
  rw [h2, h1]
  norm_num [quotaState]

/-! ## Single-flight scheduling model (claim C4)

`execute` and `processQueue` interact through the `processing` flag and the
`await` suspension points.  JavaScript's run-to-completion semantics makes the
code between two `await`s atomic; the transition system below has exactly
those atomic blocks as transitions.  A running `processQueue` loop body is
represented by its current suspension point — `sleeping` (inside the
`setTimeout` of line 102) or `inFlight` (inside the `await request.fn()` of
line 109) — and `loops` is the list of simultaneously active loop bodies, so
that the effect of the re-entrancy guard of line 76 is a theorem about the
model rather than an assumption.  The queue is abstracted to its length and
the quota/pacing branch outcomes are nondeterministic (their exact timing
behaviour is covered by the functional model above). -/

inductive LoopPhase where
  | sleeping
  | inFlight
deriving DecidableEq

/-- The shared mutable state of one controller instance, as far as loop
interleaving is concerned. -/
structure Scheduler where
  processing : Bool
  queueLen : ℕ
  loops : List LoopPhase

namespace Scheduler

/-- The number of units of work currently being awaited (line 109). -/
def inFlightCount (s : Scheduler) : ℕ :=
  s.loops.countP (fun ph => ph == LoopPhase.inFlight)

/-- The freshly constructed controller: idle, empty queue, no active loop. -/
def init : Scheduler := { processing := false, queueLen := 0, loops := [] }

/-- Atomic transitions of the controller.  `submit_*` is `execute` (lines
65-70) followed by the synchronous prefix of `processQueue`; `wake` resumes a
loop from the pacing sleep; `settle_*` resumes a loop from `await
request.fn()` and runs the next iteration up to its next suspension point or
exit. -/
inductive Step : Scheduler → Scheduler → Prop where
  /-- `execute` pushes onto a busy controller: the `processQueue` call returns
  at the line 76 guard; only the queue grows. -/
  | submit_busy (s : Scheduler) (h : s.processing = true) :
      Step s { s with queueLen := s.queueLen + 1 }
  /-- `execute` pushes onto an idle controller and the spawned loop's first
  quota check fails: the whole queue (the new item included) is rejected,
  `processing` is cleared, and the loop ends without ever suspending. -/
  | submit_quota (s : Scheduler) (h : s.processing = false) :
      Step s { processing := false, queueLen := 0, loops := s.loops }
  /-- `execute` pushes onto an idle controller; the spawned loop sets
  `processing := true`, pops the item and suspends in the pacing sleep. -/
  | submit_sleep (s : Scheduler) (h : s.processing = false) :
      Step s { processing := true, queueLen := s.queueLen
               loops := s.loops ++ [LoopPhase.sleeping] }
  /-- Same, but the pacing gap is already satisfied: the loop dispatches at
  once and suspends in `await request.fn()`. -/
  | submit_dispatch (s : Scheduler) (h : s.processing = false) :
      Step s { processing := true, queueLen := s.queueLen
               loops := s.loops ++ [LoopPhase.inFlight] }
  /-- The pacing sleep ends (lines 105-109): the loop stamps the dispatch and
  starts awaiting the unit of work. -/
  | wake (s : Scheduler) (l1 l2 : List LoopPhase)
      (h : s.loops = l1 ++ LoopPhase.sleeping :: l2) :
      Step s { s with loops := l1 ++ LoopPhase.inFlight :: l2 }
  /-- The awaited unit settles and the queue is empty: the loop clears
  `processing` and exits (lines 82, 116). -/
  | settle_exit (s : Scheduler) (l1 l2 : List LoopPhase)
      (h : s.loops = l1 ++ LoopPhase.inFlight :: l2) (hq : s.queueLen = 0) :
      Step s { processing := false, queueLen := 0, loops := l1 ++ l2 }
  /-- The awaited unit settles and the next iteration's quota check fails:
  the loop drains the queue, clears `processing` and exits (lines 84-91). -/
  | settle_quota (s : Scheduler) (l1 l2 : List LoopPhase)
      (h : s.loops = l1 ++ LoopPhase.inFlight :: l2) :
      Step s { processing := false, queueLen := 0, loops := l1 ++ l2 }
  /-- The awaited unit settles and the loop pops the next item into the
  pacing sleep. -/
  | settle_sleep (s : Scheduler) (l1 l2 : List LoopPhase)
      (h : s.loops = l1 ++ LoopPhase.inFlight :: l2) (hq : 0 < s.queueLen) :
      Step s { s with
        queueLen := s.queueLen - 1
        loops := l1 ++ LoopPhase.sleeping :: l2 }
  /-- The awaited unit settles and the loop dispatches the next item without
  pacing, staying in flight. -/
  | settle_dispatch (s : Scheduler) (l1 l2 : List LoopPhase)
      (h : s.loops = l1 ++ LoopPhase.inFlight :: l2) (hq : 0 < s.queueLen) :
      Step s { s with
        queueLen := s.queueLen - 1
        loops := l1 ++ LoopPhase.inFlight :: l2 }

/-- Reachability from the freshly constructed controller. -/
def Reachable (s : Scheduler) : Prop := Relation.ReflTransGen Step init s

/-- The guard invariant: `processing` is `true` exactly while one loop body is
active. -/
def Inv (s : Scheduler) : Prop :=
  s.loops.length = (if s.processing then 1 else 0)

theorem Inv_init : Inv init := by simp [Inv, init]

theorem ite_cond_true (a b : ℕ) : (if true = true then a else b) = a := rfl

theorem ite_cond_false (a b : ℕ) : (if false = true then a else b) = b := rfl

theorem Inv_step (s s' : Scheduler) (hs : Inv s) (hstep : Step s s') : Inv s' := by
  cases hstep with
  | submit_busy h => simpa [Inv, h] using hs
  | submit_quota h =>
    rw [Inv, h, ite_cond_false] at hs
    simp [Inv, hs]
  | submit_sleep h =>
    rw [Inv, h, ite_cond_false] at hs
    simp [Inv, hs]
  | submit_dispatch h =>
    rw [Inv, h, ite_cond_false] at hs
    simp [Inv, hs]
  | wake l1 l2 h =>
    rw [Inv, h] at hs
    rw [Inv]
    simpa using hs
  | settle_exit l1 l2 h hq =>
    rw [Inv, h] at hs
    rw [Inv, ite_cond_false]
    rcases hp : s.processing with _ | _ <;> rw [hp] at hs
    · rw [ite_cond_false] at hs
      simp only [List.length_append, List.length_cons] at hs ⊢
      omega
    · rw [ite_cond_true] at hs
      simp only [List.length_append, List.length_cons] at hs ⊢
      omega
  | settle_quota l1 l2 h =>
    rw [Inv, h] at hs
    rw [Inv, ite_cond_false]
    rcases hp : s.processing with _ | _ <;> rw [hp] at hs
    · rw [ite_cond_false] at hs
      simp only [List.length_append, List.length_cons] at hs ⊢
      omega
    · rw [ite_cond_true] at hs
      simp only [List.length_append, List.length_cons] at hs ⊢
      omega
  | settle_sleep l1 l2 h hq =>
    rw [Inv, h] at hs
    rw [Inv]
    simpa using hs
  | settle_dispatch l1 l2 h hq =>
    rw [Inv, h] at hs
    rw [Inv]
    simpa using hs

theorem Reachable_Inv (s : Scheduler) (h : Reachable s) : Inv s := by
  induction h with
  | refl => exact Inv_init
  | tail _ hbc ih => exact Inv_step _ _ ih hbc

end Scheduler

/-- C4: at every reachable state of one controller instance, at most one unit
of work is in flight (and in fact at most one loop body is active at all):
because a loop is spawned only when `processing` is `false` and the spawn
sets the flag synchronously (no `await` between the line 76 guard and line
80), a second `processQueue` invocation while a loop is active returns
immediately, so two units are never awaited concurrently — the awaited
outcome of one unit is settled before the next unit is invoked. -/
theorem single_flight (s : Scheduler) (h : Scheduler.Reachable s) :
    Scheduler.inFlightCount s ≤ 1 ∧ s.loops.length ≤ 1 := by
  have hinv := Scheduler.Reachable_Inv s h
  rw [Scheduler.Inv] at hinv
  have hlen : s.loops.length ≤ 1 := by
    split at hinv <;> omega
  exact ⟨le_trans (List.countP_le_length _) hlen, hlen⟩

/-- A reachable state with one dispatch in flight and one further queued
submission (obtained by one `submit` on the idle controller followed by a
second `submit` while the first is in flight). -/
def busyState : Scheduler := { processing := true, queueLen := 1, loops := [LoopPhase.inFlight] }

theorem busyState_reachable : Scheduler.Reachable busyState :=
  Relation.ReflTransGen.tail
    (Relation.ReflTransGen.tail Relation.ReflTransGen.refl
      (Scheduler.Step.submit_dispatch Scheduler.init rfl))
    (Scheduler.Step.submit_busy _ rfl)

/-- Witness for C4 at a concrete reachable state. -/
theorem single_flight_witness :
    Scheduler.inFlightCount busyState ≤ 1 ∧ busyState.loops.length ≤ 1 :=
  single_flight busyState busyState_reachable

end SmartInvest
